import Mathlib

/-!
Verification of the diopter bisection engine (`src/diopter/bisector.py`) and the
legacy cache-enumeration helper (`src/bisector.py`).

Commits are modelled as natural numbers; git revision strings such as `"{c}~{k}"`
are modelled through the `Repo` collaborator record below.  A test outcome is
`Option Bool`: `some true` = interesting, `some false` = not-interesting,
`none` = indeterminate (Python `None`).  Every test evaluation is recorded in a
trace (the list of commits handed to `test.check`), so statements about "how
often the test was called" are statements about the trace.

Loops that the Python code runs without a syntactic bound (`while True`) are
embedded with an explicit fuel parameter; a result of `none` at the top level
means the loop has not finished within `fuel` iterations, and divergence of the
Python code is expressed as "for every fuel the run is unfinished".
-/

abbrev Commit := Nat

abbrev TestFn := Commit → Option Bool

abbrev Trace := List Commit

/-- Exceptions that the embedded code can raise: the distinguished
`BisectionException` of `src/diopter/bisector.py`, and the `ValueError` that
`math.log2(0)` would raise in `_normal_path_bisection` when the first-parent
path between the endpoints is empty. -/
inductive PyErr where
  | bisectionException
  | valueError
deriving DecidableEq

/-- Python truthiness of a `bool | None` value (`None` and `False` are falsy). -/
def truthy : Option Bool → Bool
  | some true => true
  | _ => false

/-- One test evaluation (`test.check(commit)`), recorded in the trace. -/
def callTest (test : TestFn) (c : Commit) (tr : Trace) : Option Bool × Trace :=
  (test c, tr ++ [c])

/-- The repository collaborator used by `Bisector` (the `ccbuilder.Repo`
interface, external to this repository).  Modelled from the spec: `revToCommit`
is `rev_to_commit` on an already-resolved commit, `revSub c k` is
`rev_to_commit("{c}~{k}")`, `firstParentPath a b` is
`direct_first_parent_path(a, b)` (ordered from `b` down to `a`, inclusive of
both endpoints), and `nextBisectionCommit` is the git bisection-midpoint
proposal, with `none` standing for the empty string. -/
structure Repo where
  revToCommit : Commit → Commit
  revSub : Commit → Nat → Commit
  isAncestor : Commit → Commit → Bool
  bestCommonAncestor : Commit → Commit → Commit
  firstParentPath : Commit → Commit → List Commit
  nextBisectionCommit : Commit → Commit → Option Commit

/-- Embeds `_get_midpoint_after_failure` (src/diopter/bisector.py, lines
191-216).  Python's `int(0.9 * n)` and `int(0.2 * n)` are modelled as
`9 * n / 10` and `n / 5`: for every list length `n` a real history can produce
the double-precision products of `n` with `0.9` and `0.2` truncate to exactly
these values.  The Python signature has `max_failed_builds: int = 3`; every
caller uses the default, which is passed explicitly here. -/
def get_midpoint_after_failure (bad_rev good_rev midpoint : Commit)
    (failed_to_build_counter : Nat) (repo : Repo) (max_failed_builds : Nat) :
    Except PyErr Commit :=
  if failed_to_build_counter ≥ max_failed_builds then
    Except.error PyErr.bisectionException
  else if failed_to_build_counter % 2 = 0 then
    let range_size := (repo.firstParentPath midpoint bad_rev).length
    let step := max (9 * range_size / 10) 1
    Except.ok (repo.revSub bad_rev step)
  else
    let range_size := (repo.firstParentPath good_rev midpoint).length
    let step := max (range_size / 5) 1
    Except.ok (repo.revSub midpoint step)

/-- Embeds `_terminate` (src/diopter/bisector.py, lines 219-225). -/
def terminate (guaranteed_termination_counter : Nat) : Bool :=
  decide (guaranteed_termination_counter ≥ 20)

/-- Index of the first occurrence of `x` (Python list index). -/
def idxFromStart : List Commit → Commit → Nat
  | [], _ => 0
  | y :: ys, x => if y = x then 0 else idxFromStart ys x + 1

/-- The sort key built by `sort_dict = dict((r, v) for v, r in
enumerate(possible_revs))`: the index of the last occurrence of `x` (a dict
comprehension keeps the last value written for a key). -/
def lastIdx (l : List Commit) (x : Commit) : Nat :=
  l.length - 1 - idxFromStart l.reverse x

/-- Stable insertion of `x` into an already key-sorted list: `x` is placed
after every element whose key is less than or equal to its own. -/
def insertSorted (key : Commit → Nat) (x : Commit) : List Commit → List Commit
  | [] => [x]
  | y :: ys => if key x < key y then x :: y :: ys else y :: insertSorted key x ys

/-- Models Python's `sorted(l, key=key)`: ascending and stable.  A stable sort
is uniquely determined by the key order and stability, so any stable
implementation is semantically identical to CPython's. -/
def pySorted (key : Commit → Nat) (l : List Commit) : List Commit :=
  l.foldl (fun acc x => insertSorted key x acc) []

/-- Embeds `find_sorted_cached_commits_from_range` (src/diopter/bisector.py,
lines 159-188).  The call to the external `ccbuilder.find_cached_revisions` is
replaced by the parameter `cachedRevs`, the list that collaborator returned. -/
def find_sorted_cached_commits_from_range (good_rev bad_rev : Commit)
    (repo : Repo) (cachedRevs : List Commit) : List Commit :=
  let possible_revs := repo.firstParentPath good_rev bad_rev
  let cached := cachedRevs.filter (fun r => possible_revs.contains r)
  pySorted (fun x => lastIdx possible_revs x) cached

/-- The `while True` loop of `Bisector._in_cache_path_bisection`
(src/diopter/bisector.py, lines 324-351).  `midpoint` is the midpoint of the
previous iteration (`none` models the initial `""`).  `cached[midpoint_idx]`
is embedded as `getD` with an arbitrary default: the index `length / 2` is
always in range on the branch where it is read.  The loop removes at least
one list element per iteration, so a fuel of `cached.length + 1` always
reaches the Python loop's own exit; the fuel-0 result is never used from the
wrapper below (see `inCacheGo_fuel_irrel`). -/
def inCacheGo (test : TestFn) :
    Nat → Commit → Commit → List Commit → Option Commit → Trace →
    (Commit × Commit) × Trace
  | 0, good, bad, _, _, tr => ((good, bad), tr)
  | fuel + 1, good, bad, cached, midpoint, tr =>
    if cached.length = 0 then ((good, bad), tr)
    else
      let midpoint_idx := cached.length / 2
      let mid := cached.getD midpoint_idx 0
      if midpoint == some mid then ((good, bad), tr)
      else
        let (res, tr) := callTest test mid tr
        match res with
        | some true =>
          inCacheGo test fuel good mid (cached.drop (midpoint_idx + 1)) (some mid) tr
        | some false =>
          inCacheGo test fuel mid bad (cached.take midpoint_idx) (some mid) tr
        | none =>
          inCacheGo test fuel good bad (cached.erase mid) (some mid) tr

/-- Embeds `Bisector._in_cache_path_bisection` (src/diopter/bisector.py,
lines 311-351). -/
def Bisector.in_cache_path_bisection (test : TestFn) (bad_commit good_commit : Commit)
    (repo : Repo) (cachedRevs : List Commit) (tr : Trace) :
    (Commit × Commit) × Trace :=
  let cached_commits :=
    find_sorted_cached_commits_from_range good_commit bad_commit repo cachedRevs
  inCacheGo test (cached_commits.length + 1) good_commit bad_commit cached_commits none tr

/-- Loop state of `Bisector._normal_path_bisection`: the interval endpoints,
the current midpoint (`none` models the initial `""`), the `test_failed` flag
and the two failure counters. -/
structure NState where
  good : Commit
  bad : Commit
  midpoint : Option Commit
  testFailed : Bool
  failedToBuildCounter : Nat
  guaranteedTerminationCounter : Nat
deriving DecidableEq

/-- The `while True` loop of `Bisector._normal_path_bisection`
(src/diopter/bisector.py, lines 370-397), one fuel unit per iteration.  A
result of `none` means the loop has not exited within `fuel` iterations;
`some (Except.ok r)` is a `return r` / `break`-then-`return`, and
`some (Except.error e)` is an uncaught exception. -/
def normalLoop (test : TestFn) (repo : Repo) :
    Nat → NState → Trace → Option (Except PyErr (Option Commit)) × Trace
  | 0, _, tr => (none, tr)
  | fuel + 1, s, tr =>
    if s.testFailed = false then
      match repo.nextBisectionCommit s.good s.bad with
      | none => (some (Except.ok (some s.bad)), tr)
      | some m =>
        if some m == s.midpoint then (some (Except.ok (some s.bad)), tr)
        else
          let (res, tr) := callTest test m tr
          match res with
          | some true =>
            normalLoop test repo fuel
              { good := s.good, bad := m, midpoint := some m, testFailed := false,
                failedToBuildCounter := 0, guaranteedTerminationCounter := 0 } tr
          | some false =>
            normalLoop test repo fuel
              { good := m, bad := s.bad, midpoint := some m, testFailed := false,
                failedToBuildCounter := 0, guaranteedTerminationCounter := 0 } tr
          | none =>
            normalLoop test repo fuel
              { good := s.good, bad := s.bad, midpoint := some m, testFailed := true,
                failedToBuildCounter := 0, guaranteedTerminationCounter := 0 } tr
    else
      match get_midpoint_after_failure s.bad s.good (s.midpoint.getD 0)
          s.failedToBuildCounter repo 3 with
      | Except.error e => (some (Except.error e), tr)
      | Except.ok m =>
        if terminate s.guaranteedTerminationCounter then (some (Except.ok none), tr)
        else
          let (res, tr) := callTest test m tr
          match res with
          | some true =>
            normalLoop test repo fuel
              { good := s.good, bad := m, midpoint := some m, testFailed := false,
                failedToBuildCounter := s.failedToBuildCounter + 1,
                guaranteedTerminationCounter := s.guaranteedTerminationCounter + 1 } tr
          | some false =>
            normalLoop test repo fuel
              { good := m, bad := s.bad, midpoint := some m, testFailed := false,
                failedToBuildCounter := s.failedToBuildCounter + 1,
                guaranteedTerminationCounter := s.guaranteedTerminationCounter + 1 } tr
          | none =>
            normalLoop test repo fuel
              { good := s.good, bad := s.bad, midpoint := some m, testFailed := true,
                failedToBuildCounter := s.failedToBuildCounter + 1,
                guaranteedTerminationCounter := s.guaranteedTerminationCounter + 1 } tr

/-- Embeds `Bisector._normal_path_bisection` (src/diopter/bisector.py, lines
353-399).  The initial `math.ceil(math.log2(len_region))` in the logging call
raises `ValueError` when the first-parent path is empty, which is modelled
explicitly. -/
def Bisector.normal_path_bisection (test : TestFn) (bad_commit good_commit : Commit)
    (repo : Repo) (fuel : Nat) (tr : Trace) :
    Option (Except PyErr (Option Commit)) × Trace :=
  if (repo.firstParentPath good_commit bad_commit).length = 0 then
    (some (Except.error PyErr.valueError), tr)
  else
    normalLoop test repo fuel
      { good := good_commit, bad := bad_commit, midpoint := none, testFailed := false,
        failedToBuildCounter := 0, guaranteedTerminationCounter := 0 } tr

/-- The `try` block of `Bisector.bisect` (src/diopter/bisector.py, lines
282-309): in-cache narrowing, normal bisection, the final verification, and
the `except BisectionException: return None` handler. -/
def Bisector.bisectMain (test : TestFn) (bad_commit good_commit : Commit)
    (repo : Repo) (cachedRevs : List Commit) (fuel : Nat) (tr : Trace) :
    Option (Except PyErr (Option Commit)) × Trace :=
  let r := Bisector.in_cache_path_bisection test bad_commit good_commit repo cachedRevs tr
  match Bisector.normal_path_bisection test r.1.2 r.1.1 repo fuel r.2 with
  | (none, tr) => (none, tr)
  | (some (Except.error PyErr.bisectionException), tr) => (some (Except.ok none), tr)
  | (some (Except.error PyErr.valueError), tr) => (some (Except.error PyErr.valueError), tr)
  | (some (Except.ok none), tr) => (some (Except.ok none), tr)
  | (some (Except.ok (some bisection_commit)), tr) =>
    let pre_bisection_commit := repo.revSub bisection_commit 1
    let (bisection_res, tr) := callTest test bisection_commit tr
    let (pre_bisection_res, tr) := callTest test pre_bisection_commit tr
    if truthy bisection_res && ! truthy pre_bisection_res then
      (some (Except.ok (some bisection_commit)), tr)
    else
      (some (Except.ok none), tr)

/-- Embeds `Bisector.bisect` (src/diopter/bisector.py, lines 234-309).  The
`project` argument and `self.build_cache_prefix` only feed the external cache
enumerator, whose answer is the parameter `cachedRevs`. -/
def Bisector.bisect (test : TestFn) (bad_rev good_rev : Commit) (repo : Repo)
    (cachedRevs : List Commit) (fuel : Nat) :
    Option (Except PyErr (Option Commit)) × Trace :=
  let good_commit := repo.revToCommit good_rev
  let bad_commit := repo.revToCommit bad_rev
  if repo.isAncestor good_commit bad_commit then
    Bisector.bisectMain test bad_commit good_commit repo cachedRevs fuel []
  else
    let bca := repo.bestCommonAncestor good_commit bad_commit
    let (test_res, tr) := callTest test bca []
    match test_res with
    | some false => Bisector.bisectMain test bad_commit bca repo cachedRevs fuel tr
    | some true => (some (Except.ok none), tr)
    | none => (some (Except.ok none), tr)

/-- The first-parent path of a linear (single-branch) history: from `b` down to
`a`, inclusive, empty when `a` is not an ancestor of `b`.  Modelled from the
spec's repository contract (§6). -/
def linPath (a b : Commit) : List Commit :=
  if a ≤ b then (List.range (b - a + 1)).map (fun i => b - i) else []

/-- A linear git history where commit `i + 1` has first parent `i`.  Modelled
from the spec: `nextBisectionCommit` mirrors `git rev-list --bisect good..bad`,
which on a linear range returns the midpoint of `(good, bad]` and the empty
string on an empty range; `revSub` truncates at the root commit `0`. -/
def linRepo : Repo where
  revToCommit := fun c => c
  revSub := fun c k => c - k
  isAncestor := fun a b => decide (a ≤ b)
  bestCommonAncestor := fun a b => min a b
  firstParentPath := linPath
  nextBisectionCommit := fun g b => if g < b then some (g + (b - g + 1) / 2) else none

/-!
The legacy cache-enumeration helper `find_cached_revisions`
(src/bisector.py, lines 19-32).  Python strings are modelled as `List Char`,
a directory entry of `Path(config.cachedir).iterdir()` as a `CacheEntry`.
-/

/-- Index of the last occurrence of `c`, Python `str.rfind`. -/
def rfindChar : List Char → Char → Option Nat
  | [], _ => none
  | x :: xs, c =>
    match rfindChar xs c with
    | some i => some (i + 1)
    | none => if x = c then some 0 else none

/-- `pathlib.PurePath.stem` of a final path component: the name with its
suffix removed, where the suffix starts at the last `.` provided that dot is
neither the first nor the last character. -/
def pyStem (name : List Char) : List Char :=
  match rfindChar name '.' with
  | some i => if 0 < i ∧ i < name.length - 1 then name.take i else name
  | none => name

/-- Python `s.split("-")[-1]`: the part of `s` after the last `-`, or all of
`s` when it has none. -/
def afterLastDash (s : List Char) : List Char :=
  match rfindChar s '-' with
  | some i => s.drop (i + 1)
  | none => s

/-- Python `str.startswith`. -/
def strStartsWith : List Char → List Char → Bool
  | _, [] => true
  | [], _ :: _ => false
  | x :: xs, y :: ys => x = y && strStartsWith xs ys

/-- A directory entry of the cache directory: its final name component,
whether it is a symbolic link, and the names of executables present in its
`bin` subdirectory (so `(entry / "bin" / name).exists()` is
`binaries.contains name`). -/
structure CacheEntry where
  name : List Char
  isSymlink : Bool
  binaries : List (List Char)

/-- Embeds `find_cached_revisions` (src/bisector.py, lines 19-32).
`str(entry)` for an entry of `Path(cachedir).iterdir()` is
`cachedir ++ "/" ++ entry.name`. -/
def find_cached_revisions (compiler_name : List Char) (cachedir : List Char)
    (entries : List CacheEntry) : List (List Char) :=
  let cname := if compiler_name = "llvm".toList then "clang".toList else compiler_name
  entries.foldl
    (fun compilers entry =>
      if entry.isSymlink || ! strStartsWith (pyStem entry.name) cname then compilers
      else if ! entry.binaries.contains cname then compilers
      else compilers ++ [afterLastDash (cachedir ++ '/' :: entry.name)])
    []

/-- Modelled from the spec (§4.5): the enumeration described there keeps the
non-symlink entries whose (stem of the) name carries the canonical compiler
name and which contain the compiler binary, and reads the commit identifier
off the entry NAME as the suffix after its final `-`.  (The cache directory
path plays no role in the identifiers the spec describes.) -/
def find_cached_revisions_spec (compiler_name : List Char) (_cachedir : List Char)
    (entries : List CacheEntry) : List (List Char) :=
  let cname := if compiler_name = "llvm".toList then "clang".toList else compiler_name
  (entries.filter (fun entry =>
      ! entry.isSymlink && strStartsWith (pyStem entry.name) cname
        && entry.binaries.contains cname)).map
    (fun entry => afterLastDash entry.name)

/-- The code-side description with the corrected identifier extraction: the
suffix after the final `-` of the full path string `cachedir/name`. -/
def find_cached_revisions_amended (compiler_name : List Char) (cachedir : List Char)
    (entries : List CacheEntry) : List (List Char) :=
  let cname := if compiler_name = "llvm".toList then "clang".toList else compiler_name
  (entries.filter (fun entry =>
      ! entry.isSymlink && strStartsWith (pyStem entry.name) cname
        && entry.binaries.contains cname)).map
    (fun entry => afterLastDash (cachedir ++ '/' :: entry.name))

/-- The substitute midpoint that the spec's words for the even-failure case
describe: "move 90% of the way from the current midpoint toward `bad`", with
"at least a 1-commit step", on the linear history. -/
def claimed_midpoint_even (bad_rev midpoint : Commit) : Commit :=
  midpoint + max (9 * (bad_rev - midpoint) / 10) 1

/-- Test callback with `test(1) = interesting` and `test(0) = indeterminate`:
on `(good, bad) = (0, 1)` the bisection returns commit `1` although the
verification of its parent was indeterminate. -/
def tC1 : TestFn := fun c => if c = 1 then some true else if c = 0 then none else some false

/-- Deterministic test callback that is not-interesting at `0` and
indeterminate everywhere else: on `(good, bad) = (0, 1)` the normal bisection
loop cycles forever. -/
def tC2 : TestFn := fun c => if c = 0 then some false else none

/-- Test callback that is interesting exactly at commit `3` (used with
divergent endpoints whose best common ancestor is `3`). -/
def tC3 : TestFn := fun c => if c = 3 then some true else some false

/-- The always-indeterminate test callback. -/
def tNone : TestFn := fun _ => none

/-- A total, monotone test callback: interesting exactly from commit `2` on. -/
def tMono : TestFn := fun c => if 2 ≤ c then some true else some false

/-- Test callback interesting at `1`, not-interesting at `0`, indeterminate
elsewhere: starting from `(good, bad) = (2, 3)` the failure-recovery jumps
leave the initial interval and the run returns commit `1`. -/
def t8 : TestFn := fun c => if c = 0 then some false else if c = 1 then some true else none

/-- Test callback that is interesting exactly at commit `4` (in-cache step
witness). -/
def tW : TestFn := fun c => if c = 4 then some true else some false

/-! ## Theorems -/

theorem linPath_length (a b : Commit) (h : a ≤ b) : (linPath a b).length = b - a + 1 := by
  simp [linPath, h]

/-- C4, counterexample: at `good = 0`, `midpoint = 0`, `bad = 10` and an
even-numbered failure, the code picks commit `1` (about 10% of the way from
the midpoint toward `bad`), not the commit `9` that "90% of the way from the
current midpoint toward bad" describes. -/
theorem claim_C4_counterexample :
    get_midpoint_after_failure 10 0 0 0 linRepo 3 = Except.ok 1 ∧
    claimed_midpoint_even 10 0 = 9 ∧ (1 : Commit) ≠ 9 :=
  ⟨rfl, rfl, by decide⟩

/-- C4, amended: on even-numbered consecutive failures the substitute midpoint
is `bad ~ step` with `step = max(int(0.9 * len(path(midpoint, bad))), 1)`,
i.e. about 10% of the way from the current midpoint toward `bad`; on
odd-numbered failures it is `midpoint ~ step` with
`step = max(int(0.2 * len(path(good, midpoint))), 1)`, i.e. about 20% of the
way from the midpoint toward `good`; in both cases the step is at least one
commit (taken from `bad` resp. from the midpoint). -/
theorem claim_C4_amended (good mid bad f : Nat) (hf : f < 3) (h1 : good ≤ mid)
    (h2 : mid ≤ bad) :
    (f % 2 = 0 → ∃ step, step = max (9 * (bad - mid + 1) / 10) 1 ∧ 1 ≤ step ∧
      get_midpoint_after_failure bad good mid f linRepo 3 = Except.ok (bad - step)) ∧
    (f % 2 = 1 → ∃ step, step = max ((mid - good + 1) / 5) 1 ∧ 1 ≤ step ∧
      get_midpoint_after_failure bad good mid f linRepo 3 = Except.ok (mid - step)) := by
  constructor
  · intro hpar
    refine ⟨max (9 * (bad - mid + 1) / 10) 1, rfl, le_max_right _ 1, ?_⟩
    unfold get_midpoint_after_failure
    simp only [ge_iff_le, show ¬ (3 ≤ f) by omega, if_false, hpar, if_true]
    show Except.ok (bad - max (9 * (linPath mid bad).length / 10) 1) = _
    rw [linPath_length mid bad h2]
  · intro hpar
    refine ⟨max ((mid - good + 1) / 5) 1, rfl, le_max_right _ 1, ?_⟩
    unfold get_midpoint_after_failure
    simp only [ge_iff_le, show ¬ (3 ≤ f) by omega, if_false,
      show ¬ (f % 2 = 0) by omega, if_false]
    show Except.ok (mid - max ((linPath good mid).length / 5) 1) = _
    rw [linPath_length good mid h1]

/-- C4, witness for the amended claim at `good = 0`, `mid = 0`, `bad = 10`,
failure counter `0`. -/
theorem claim_C4_amended_witness :
    get_midpoint_after_failure 10 0 0 0 linRepo 3 = Except.ok (10 - 9) := by
  obtain ⟨heven, -⟩ := claim_C4_amended 0 0 10 0 (by decide) (by decide) (by decide)
  obtain ⟨step, hs, -, hres⟩ := heven (by decide)
  rw [hres, hs]
  rfl

theorem find_cached_revisions_step_eq (cname cachedir : List Char) :
    (fun (compilers : List (List Char)) (entry : CacheEntry) =>
      if entry.isSymlink || ! strStartsWith (pyStem entry.name) cname then compilers
      else if ! entry.binaries.contains cname then compilers
      else compilers ++ [afterLastDash (cachedir ++ '/' :: entry.name)])
    = (fun compilers entry =>
      if ! entry.isSymlink && strStartsWith (pyStem entry.name) cname
          && entry.binaries.contains cname then
        compilers ++ [afterLastDash (cachedir ++ '/' :: entry.name)]
      else compilers) := by
  funext compilers entry
  cases hsym : entry.isSymlink <;>
    cases hpre : strStartsWith (pyStem entry.name) cname <;>
      cases hbin : entry.binaries.contains cname <;> simp [hsym, hpre, hbin]

theorem foldl_append_filter_map {α β : Type} (p : α → Bool) (f : α → β) :
    ∀ (l : List α) (acc : List β),
      l.foldl (fun acc x => if p x then acc ++ [f x] else acc) acc
        = acc ++ (l.filter p).map f := by
  intro l
  induction l with
  | nil => simp
  | cons x xs ih => intro acc; cases hp : p x <;> simp [List.filter_cons, hp, ih]

/-- C9, amended: the scan returns exactly the entries that are not symlinks,
whose stem carries the canonical compiler name (with `llvm` mapped to
`clang`), and which contain the compiler binary — but the returned identifier
is the suffix of the FULL PATH string `cachedir/name` after its final `-`
(which coincides with the suffix of the name whenever the name itself
contains a `-`). -/
theorem claim_C9_amended (compiler_name cachedir : List Char)
    (entries : List CacheEntry) :
    find_cached_revisions compiler_name cachedir entries
      = find_cached_revisions_amended compiler_name cachedir entries := by
  simp only [find_cached_revisions, find_cached_revisions_amended]
  rw [find_cached_revisions_step_eq, foldl_append_filter_map]
  simp

/-- C9, counterexample: for a cached entry named `gcc123` (no `-` in the
name) under cache directory `/my-cache`, the code returns the identifier
`cache/gcc123` — the suffix of the full path after its last `-` — whereas the
claim's "suffix of the entry's name following the final `-`" is `gcc123`. -/
theorem claim_C9_counterexample :
    find_cached_revisions "gcc".toList "/my-cache".toList
        [⟨"gcc123".toList, false, ["gcc".toList]⟩] = ["cache/gcc123".toList] ∧
    find_cached_revisions_spec "gcc".toList "/my-cache".toList
        [⟨"gcc123".toList, false, ["gcc".toList]⟩] = ["gcc123".toList] ∧
    ("cache/gcc123".toList : List Char) ≠ "gcc123".toList :=
  ⟨rfl, rfl, by decide⟩

/-- C3: when the resolved good commit is not an ancestor of the resolved bad
commit, `Bisector.bisect` tests the best common ancestor exactly once (the
trace is exactly `[bca]` in the aborting cases): a not-interesting result
makes the BCA the new good endpoint and bisection proceeds, while an
interesting or indeterminate result returns null with no further build or
test evaluation. -/
theorem claim_C3 (test : TestFn) (bad_rev good_rev : Commit) (repo : Repo)
    (cachedRevs : List Commit) (fuel : Nat)
    (hanc : repo.isAncestor (repo.revToCommit good_rev) (repo.revToCommit bad_rev) = false) :
    (test (repo.bestCommonAncestor (repo.revToCommit good_rev) (repo.revToCommit bad_rev))
        = some true →
      Bisector.bisect test bad_rev good_rev repo cachedRevs fuel
        = (some (Except.ok none),
          [repo.bestCommonAncestor (repo.revToCommit good_rev) (repo.revToCommit bad_rev)])) ∧
    (test (repo.bestCommonAncestor (repo.revToCommit good_rev) (repo.revToCommit bad_rev))
        = none →
      Bisector.bisect test bad_rev good_rev repo cachedRevs fuel
        = (some (Except.ok none),
          [repo.bestCommonAncestor (repo.revToCommit good_rev) (repo.revToCommit bad_rev)])) ∧
    (test (repo.bestCommonAncestor (repo.revToCommit good_rev) (repo.revToCommit bad_rev))
        = some false →
      Bisector.bisect test bad_rev good_rev repo cachedRevs fuel
        = Bisector.bisectMain test (repo.revToCommit bad_rev)
            (repo.bestCommonAncestor (repo.revToCommit good_rev) (repo.revToCommit bad_rev))
            repo cachedRevs fuel
            [repo.bestCommonAncestor (repo.revToCommit good_rev) (repo.revToCommit bad_rev)]) := by
  refine ⟨fun h => ?_, fun h => ?_, fun h => ?_⟩ <;>
    simp [Bisector.bisect, hanc, callTest, h]

/-- C3, witness: on the linear history with `good_rev = 5`, `bad_rev = 3`
(so `good` is not an ancestor of `bad`, and the best common ancestor is `3`),
a test that is interesting at `3` makes `bisect` return null after exactly
one test evaluation. -/
theorem claim_C3_witness :
    Bisector.bisect tC3 3 5 linRepo [] 10 = (some (Except.ok none), [3]) := by
  have h := claim_C3 tC3 3 5 linRepo [] 10 (by decide)
  exact h.1 (by decide)

theorem normalLoop_no_backstop (test : TestFn) (repo : Repo) :
    ∀ (fuel : Nat) (s : NState) (tr : Trace),
      s.guaranteedTerminationCounter ≤ s.failedToBuildCounter →
      (normalLoop test repo fuel s tr).1 ≠ some (Except.ok none) := by
  intro fuel
  induction fuel with
  | zero => intro s tr _; simp [normalLoop]
  | succ n ih =>
    intro s tr hinv
    simp only [normalLoop]
    by_cases hfail : s.testFailed = false
    · rw [if_pos hfail]
      cases hnbc : repo.nextBisectionCommit s.good s.bad with
      | none => simp
      | some m =>
        dsimp only
        by_cases hmid : (some m == s.midpoint) = true
        · rw [if_pos hmid]; simp
        · rw [if_neg hmid]
          simp only [callTest]
          cases htm : test m with
          | none => exact ih _ _ (by simp)
          | some b =>
            cases b
            · exact ih _ _ (by simp)
            · exact ih _ _ (by simp)
    · rw [if_neg hfail]
      cases hgm : get_midpoint_after_failure s.bad s.good (s.midpoint.getD 0)
          s.failedToBuildCounter repo 3 with
      | error e => simp
      | ok m =>
        have hlt : s.failedToBuildCounter < 3 := by
          by_contra hc
          unfold get_midpoint_after_failure at hgm
          rw [if_pos (by omega)] at hgm
          exact Except.noConfusion hgm
        have hterm : terminate s.guaranteedTerminationCounter = false := by
          unfold terminate
          simp only [ge_iff_le, decide_eq_false_iff_not]
          omega
        dsimp only
        rw [hterm]
        simp only [Bool.false_eq_true, if_false, callTest]
        cases htm : test m with
        | none => exact ih _ _ (by simp; omega)
        | some b =>
          cases b
          · exact ih _ _ (by simp; omega)
          · exact ih _ _ (by simp; omega)

/-- C10: the two failure counters of `_normal_path_bisection` stay equal (both
reset together on success, both incremented together on failure), and since
`_get_midpoint_after_failure` raises `BisectionException` once the per-spot
counter reaches 3, the 20-failure global backstop of `_terminate` is
unreachable: `_normal_path_bisection` never returns `None` through the
backstop path (`Except.ok none` is that path's only source in the
embedding). -/
theorem claim_C10 (test : TestFn) (bad_commit good_commit : Commit) (repo : Repo)
    (fuel : Nat) (tr : Trace) :
    (Bisector.normal_path_bisection test bad_commit good_commit repo fuel tr).1
      ≠ some (Except.ok none) := by
  unfold Bisector.normal_path_bisection
  by_cases h : (repo.firstParentPath good_commit bad_commit).length = 0
  · rw [if_pos h]; simp
  · rw [if_neg h]
    exact normalLoop_no_backstop test repo fuel _ tr (by simp)

theorem bisectMain_ne_exception (test : TestFn) (bad_commit good_commit : Commit)
    (repo : Repo) (cachedRevs : List Commit) (fuel : Nat) (tr : Trace) :
    (Bisector.bisectMain test bad_commit good_commit repo cachedRevs fuel tr).1
      ≠ some (Except.error PyErr.bisectionException) := by
  simp only [Bisector.bisectMain]
  split
  · simp
  · simp
  · simp
  · simp
  · split <;> simp

/-- C6: `BisectionException` never escapes `Bisector.bisect` — for every
repository and test-callback behaviour the entry point's result is never that
exception — and whenever the inner normal bisection finishes with
`BisectionException`, the `try` block converts it into a null result. -/
theorem claim_C6 (test : TestFn) (bad_rev good_rev : Commit) (repo : Repo)
    (cachedRevs : List Commit) (fuel : Nat) :
    (Bisector.bisect test bad_rev good_rev repo cachedRevs fuel).1
      ≠ some (Except.error PyErr.bisectionException) ∧
    (∀ (bad_commit good_commit : Commit) (tr : Trace),
      (Bisector.normal_path_bisection test
          (Bisector.in_cache_path_bisection test bad_commit good_commit repo cachedRevs tr).1.2
          (Bisector.in_cache_path_bisection test bad_commit good_commit repo cachedRevs tr).1.1
          repo fuel
          (Bisector.in_cache_path_bisection test bad_commit good_commit repo cachedRevs tr).2).1
        = some (Except.error PyErr.bisectionException) →
      (Bisector.bisectMain test bad_commit good_commit repo cachedRevs fuel tr).1
        = some (Except.ok none)) := by
  constructor
  · simp only [Bisector.bisect]
    split
    · exact bisectMain_ne_exception _ _ _ _ _ _ _
    · simp only [callTest]
      cases htb : test (repo.bestCommonAncestor (repo.revToCommit good_rev)
          (repo.revToCommit bad_rev)) with
      | none => simp
      | some b =>
        cases b
        · exact bisectMain_ne_exception _ _ _ _ _ _ _
        · simp
  · intro bad_commit good_commit trx h
    simp only [Bisector.bisectMain] at h ⊢
    split <;> rename_i heq <;> rw [heq] at h <;> simp at h

/-- C6, witness: with the always-indeterminate test on the linear history
between `good = 0` and `bad = 3`, the normal bisection aborts with
`BisectionException` after three consecutive failures and the entry point
converts it into a null result. -/
theorem claim_C6_witness :
    (Bisector.bisectMain tNone 3 0 linRepo [] 10 []).1 = some (Except.ok none) := by
  exact (claim_C6 tNone 3 0 linRepo [] 10).2 3 0 [] rfl

theorem bisectMain_verified (test : TestFn) (bad_commit good_commit : Commit)
    (repo : Repo) (cachedRevs : List Commit) (fuel : Nat) (tr : Trace) (c : Commit)
    (h : (Bisector.bisectMain test bad_commit good_commit repo cachedRevs fuel tr).1
      = some (Except.ok (some c))) :
    truthy (test c) = true ∧ truthy (test (repo.revSub c 1)) = false := by
  simp only [Bisector.bisectMain, callTest] at h
  split at h
  · simp at h
  · simp at h
  · simp at h
  · simp at h
  · rename_i c' heq
    split at h
    · rename_i hcond
      simp at h
      subst h
      simp only [Bool.and_eq_true, Bool.not_eq_true'] at hcond
      exact ⟨hcond.1, hcond.2⟩
    · simp at h

theorem bisect_verified (test : TestFn) (bad_rev good_rev : Commit) (repo : Repo)
    (cachedRevs : List Commit) (fuel : Nat) (c : Commit)
    (h : (Bisector.bisect test bad_rev good_rev repo cachedRevs fuel).1
      = some (Except.ok (some c))) :
    truthy (test c) = true ∧ truthy (test (repo.revSub c 1)) = false := by
  simp only [Bisector.bisect, callTest] at h
  split at h
  · exact bisectMain_verified _ _ _ _ _ _ _ _ h
  · split at h
    · exact bisectMain_verified _ _ _ _ _ _ _ _ h
    · simp at h
    · simp at h

/-- C1, counterexample: on the linear history with `good = 0`, `bad = 1`,
`test(1) = interesting` and `test(0) = indeterminate`, `bisect` returns
commit `1` even though `test(1~1) = test(0)` is indeterminate, not
not-interesting: `bisection_res and not pre_bisection_res` accepts a falsy
(`None`) parent result, so the double condition of the claim does not hold
and yet the candidate is surfaced instead of null. -/
theorem claim_C1_counterexample :
    (Bisector.bisect tC1 1 0 linRepo [] 10).1 = some (Except.ok (some 1)) ∧
    tC1 (linRepo.revSub 1 1) = none :=
  ⟨rfl, rfl⟩

/-- C1, amended: whenever `Bisector.bisect` returns a non-null commit `c`,
the verification has established `test(c) == interesting` and
`test(c~1)` NOT interesting (i.e. not-interesting OR indeterminate); whenever
this weaker double condition fails for the candidate, null is returned. -/
theorem claim_C1_amended (test : TestFn) (bad_rev good_rev : Commit) (repo : Repo)
    (cachedRevs : List Commit) (fuel : Nat) (c : Commit)
    (h : (Bisector.bisect test bad_rev good_rev repo cachedRevs fuel).1
      = some (Except.ok (some c))) :
    truthy (test c) = true ∧ truthy (test (repo.revSub c 1)) = false :=
  bisect_verified test bad_rev good_rev repo cachedRevs fuel c h

/-- C1, witness for the amended claim at the counterexample input. -/
theorem claim_C1_amended_witness :
    (Bisector.bisect tC1 1 0 linRepo [] 10).1 = some (Except.ok (some 1)) ∧
    truthy (tC1 1) = true ∧ truthy (tC1 (linRepo.revSub 1 1)) = false := by
  have h := claim_C1_amended tC1 1 0 linRepo [] 10 1 rfl
  exact ⟨rfl, h.1, h.2⟩

/-- C7: for a deterministic test that never answers indeterminate and is
monotone along the linear first-parent chain (transitioning once from
not-interesting at `good` to interesting at `bad`), every non-null output `c`
of `Bisector.bisect` satisfies `test(c) = interesting` and
`test(parent(c)) = not-interesting`. -/
theorem claim_C7 (test : TestFn) (bad_rev good_rev : Commit) (cachedRevs : List Commit)
    (fuel : Nat) (c : Commit)
    (htotal : ∀ x, test x ≠ none)
    (hmono : ∀ x y, x ≤ y → test x = some true → test y = some true)
    (hgood : truthy (test good_rev) = false) (hbad : truthy (test bad_rev) = true)
    (h : (Bisector.bisect test bad_rev good_rev linRepo cachedRevs fuel).1
      = some (Except.ok (some c))) :
    test c = some true ∧ test (c - 1) = some false := by
  obtain ⟨hv1, hv2⟩ := bisect_verified test bad_rev good_rev linRepo cachedRevs fuel c h
  constructor
  · cases hc : test c with
    | none => exact absurd hc (htotal c)
    | some b =>
      cases b
      · rw [hc] at hv1; simp [truthy] at hv1
      · rfl
  · cases hc : test (c - 1) with
    | none => exact absurd hc (htotal _)
    | some b =>
      cases b
      · rfl
      · rw [show linRepo.revSub c 1 = c - 1 from rfl, hc] at hv2
        simp [truthy] at hv2

/-- C7, witness: the monotone total test with boundary `2` on
`(good, bad) = (0, 3)` makes `bisect` return commit `2`, and the conclusion
holds there. -/
theorem claim_C7_witness :
    (Bisector.bisect tMono 3 0 linRepo [] 10).1 = some (Except.ok (some 2)) ∧
    tMono 2 = some true ∧ tMono 1 = some false := by
  have h := claim_C7 tMono 3 0 [] 10 2
    (by intro x; unfold tMono; split <;> simp)
    (by
      intro x y hxy hx
      unfold tMono at hx ⊢
      split at hx
      · rename_i h2x
        rw [if_pos (Nat.le_trans h2x hxy)]
      · exact absurd hx (by simp))
    rfl rfl rfl
  exact ⟨rfl, h.1, h.2⟩

theorem tC2_cycle (fuel : Nat) :
    ∀ tr, (normalLoop tC2 linRepo fuel ⟨0, 1, some 1, true, 0, 0⟩ tr).1 = none := by
  induction fuel using Nat.strong_induction_on with
  | _ fuel ih =>
    match fuel with
    | 0 => intro tr; rfl
    | 1 => intro tr; rfl
    | n + 2 =>
      intro tr
      have hstep : normalLoop tC2 linRepo (n + 2) ⟨0, 1, some 1, true, 0, 0⟩ tr
          = normalLoop tC2 linRepo n ⟨0, 1, some 1, true, 0, 0⟩ ((tr ++ [0]) ++ [1]) := rfl
      rw [hstep]
      exact ih n (by omega) _

/-- C2: the claim fails on the code.  On the linear history with
`good = 0`, `bad = 1`, a deterministic test that answers not-interesting at
`0` and indeterminate at `1` drives `Bisector.bisect` into an infinite loop:
each round proposes midpoint `1` (indeterminate, marking the round failed),
the failure substitute is commit `0` (not-interesting, so `good` is
re-assigned unchanged), and the next success-branch iteration resets both
failure counters, so neither the per-spot bound of 3 nor the 20-failure
backstop ever fires.  For every fuel the run is still unfinished. -/
theorem claim_C2 (fuel : Nat) :
    (Bisector.bisect tC2 1 0 linRepo [] fuel).1 = none := by
  have hstart : ∀ f tr, (normalLoop tC2 linRepo f ⟨0, 1, none, false, 0, 0⟩ tr).1 = none := by
    intro f tr
    match f with
    | 0 => rfl
    | m + 1 =>
      have hstep : normalLoop tC2 linRepo (m + 1) ⟨0, 1, none, false, 0, 0⟩ tr
          = normalLoop tC2 linRepo m ⟨0, 1, some 1, true, 0, 0⟩ (tr ++ [1]) := rfl
      rw [hstep]
      exact tC2_cycle m _
  have hnp : (Bisector.normal_path_bisection tC2 1 0 linRepo fuel []).1 = none := by
    show (normalLoop tC2 linRepo fuel ⟨0, 1, none, false, 0, 0⟩ []).1 = none
    exact hstart fuel []
  show (Bisector.bisectMain tC2 1 0 linRepo [] fuel []).1 = none
  have hicp : Bisector.in_cache_path_bisection tC2 1 0 linRepo [] [] = ((0, 1), []) := rfl
  simp only [Bisector.bisectMain, hicp]
  rcases hx : Bisector.normal_path_bisection tC2 1 0 linRepo fuel [] with ⟨res, tr2⟩
  rw [hx] at hnp
  simp at hnp
  subst hnp
  rfl

theorem inCacheGo_fuel_irrel (test : TestFn) :
    ∀ (f1 f2 : Nat) (good bad : Commit) (cached : List Commit)
      (mid : Option Commit) (tr : Trace),
      cached.length < f1 → cached.length < f2 →
      inCacheGo test f1 good bad cached mid tr = inCacheGo test f2 good bad cached mid tr := by
  intro f1
  induction f1 using Nat.strong_induction_on with
  | _ f1 ih =>
    intro f2 good bad cached mid tr h1 h2
    obtain ⟨m, rfl⟩ : ∃ m, f1 = m + 1 := ⟨f1 - 1, by omega⟩
    obtain ⟨k, rfl⟩ : ∃ k, f2 = k + 1 := ⟨f2 - 1, by omega⟩
    simp only [inCacheGo]
    by_cases hlen : cached.length = 0
    · rw [if_pos hlen, if_pos hlen]
    · rw [if_neg hlen, if_neg hlen]
      by_cases hmid : (mid == some (cached.getD (cached.length / 2) 0)) = true
      · rw [if_pos hmid, if_pos hmid]
      · rw [if_neg hmid, if_neg hmid]
        simp only [callTest]
        have hmem : cached.getD (cached.length / 2) 0 ∈ cached := by
          rw [List.getD_eq_getElem?_getD]
          have hidx : cached.length / 2 < cached.length := by omega
          rw [List.getElem?_eq_getElem hidx]
          exact List.getElem_mem hidx
        cases htm : test (cached.getD (cached.length / 2) 0) with
        | none =>
          apply ih m (by omega)
          · rw [List.length_erase_of_mem hmem]; omega
          · rw [List.length_erase_of_mem hmem]; omega
        | some b =>
          cases b
          · apply ih m (by omega)
            · rw [List.length_take]; omega
            · rw [List.length_take]; omega
          · apply ih m (by omega)
            · rw [List.length_drop]; omega
            · rw [List.length_drop]; omega

/-- C5: one step of the in-cache bisection loop over a non-empty cached list
picks the midpoint at index `len / 2`; if it equals the previous midpoint the
loop stops returning `(good, bad)`; on interesting, `bad` becomes the midpoint
and only the entries after the midpoint index are kept; on not-interesting,
`good` becomes the midpoint, `bad` is unchanged, and only the entries before
the midpoint index are kept; on indeterminate, the midpoint element is removed
and both endpoints are unchanged; an empty list returns `(good, bad)`. -/
theorem claim_C5 (test : TestFn) (fuel : Nat) (good bad : Commit) (cached : List Commit)
    (mid : Option Commit) (tr : Trace) (hfuel : cached.length < fuel) :
    (cached = [] → inCacheGo test fuel good bad cached mid tr = ((good, bad), tr)) ∧
    (cached.length ≠ 0 →
      (mid = some (cached.getD (cached.length / 2) 0) →
        inCacheGo test fuel good bad cached mid tr = ((good, bad), tr)) ∧
      (mid ≠ some (cached.getD (cached.length / 2) 0) →
        (test (cached.getD (cached.length / 2) 0) = some true →
          inCacheGo test fuel good bad cached mid tr
            = inCacheGo test fuel good (cached.getD (cached.length / 2) 0)
                (cached.drop (cached.length / 2 + 1))
                (some (cached.getD (cached.length / 2) 0))
                (tr ++ [cached.getD (cached.length / 2) 0])) ∧
        (test (cached.getD (cached.length / 2) 0) = some false →
          inCacheGo test fuel good bad cached mid tr
            = inCacheGo test fuel (cached.getD (cached.length / 2) 0) bad
                (cached.take (cached.length / 2))
                (some (cached.getD (cached.length / 2) 0))
                (tr ++ [cached.getD (cached.length / 2) 0])) ∧
        (test (cached.getD (cached.length / 2) 0) = none →
          inCacheGo test fuel good bad cached mid tr
            = inCacheGo test fuel good bad
                (cached.erase (cached.getD (cached.length / 2) 0))
                (some (cached.getD (cached.length / 2) 0))
                (tr ++ [cached.getD (cached.length / 2) 0])))) := by
  obtain ⟨k, rfl⟩ : ∃ k, fuel = k + 1 := ⟨fuel - 1, by omega⟩
  constructor
  · intro hnil; subst hnil; rfl
  · intro hlen
    have hmem : cached.getD (cached.length / 2) 0 ∈ cached := by
      have hidx : cached.length / 2 < cached.length := by omega
      rw [List.getD_eq_getElem?_getD, List.getElem?_eq_getElem hidx]
      exact List.getElem_mem hidx
    constructor
    · intro hmid
      simp only [inCacheGo]
      rw [if_neg hlen, if_pos (by rw [hmid]; exact beq_self_eq_true _)]
    · intro hmid
      have hmidb : ¬ ((mid == some (cached.getD (cached.length / 2) 0)) = true) := by
        simp only [beq_iff_eq]
        exact hmid
      refine ⟨fun htm => ?_, fun htm => ?_, fun htm => ?_⟩
      · conv_lhs => simp only [inCacheGo]
        rw [if_neg hlen, if_neg hmidb]
        simp only [callTest, htm]
        apply inCacheGo_fuel_irrel
        · rw [List.length_drop]; omega
        · rw [List.length_drop]; omega
      · conv_lhs => simp only [inCacheGo]
        rw [if_neg hlen, if_neg hmidb]
        simp only [callTest, htm]
        apply inCacheGo_fuel_irrel
        · rw [List.length_take]; omega
        · rw [List.length_take]; omega
      · conv_lhs => simp only [inCacheGo]
        rw [if_neg hlen, if_neg hmidb]
        simp only [callTest, htm]
        apply inCacheGo_fuel_irrel
        · rw [List.length_erase_of_mem hmem]; omega
        · rw [List.length_erase_of_mem hmem]; omega

/-- C5, witness: a concrete interesting midpoint step on the cached list
`[7, 4]` with interval `(2, 9)`. -/
theorem claim_C5_witness :
    inCacheGo tW 3 2 9 [7, 4] none []
      = inCacheGo tW 3 2 4 (List.drop 2 [7, 4]) (some 4) ([] ++ [4]) := by
  have h := (claim_C5 tW 3 2 9 [7, 4] none [] (by decide)).2 (by decide)
  exact (h.2 (by decide)).1 (by decide)

/-- C8, counterexample: monotonic narrowing fails in the normal phase.  On the
linear history with `(good, bad) = (2, 3)` and a test that is indeterminate at
`2` and `3`, interesting at `1` and not-interesting at `0`, the
failure-recovery substitutes walk outside the interval: the run returns
commit `1`, which does not lie on the first-parent path between the initial
endpoints, so the intervals did not narrow monotonically. -/
theorem claim_C8_counterexample :
    (Bisector.bisect t8 3 2 linRepo [] 10).1 = some (Except.ok (some 1)) ∧
    ¬ (1 ∈ linPath 2 3) :=
  ⟨rfl, by decide⟩

/-- C8, amended: the monotonic-narrowing invariant does hold for the in-cache
phase.  If the cached list lies inside `[good, bad]` and is sorted along the
path (descending, bad-end first), every update of the in-cache loop keeps the
interval nested: the final `(good2, bad2)` satisfies
`good ≤ good2 ≤ bad2 ≤ bad`.  In the normal phase the failure-path substitute
updates can leave the previous interval (see the counterexample). -/
theorem claim_C8_amended (test : TestFn) :
    ∀ (fuel : Nat) (good bad : Commit) (cached : List Commit) (mid : Option Commit)
      (tr : Trace),
      cached.length < fuel → good ≤ bad →
      (∀ c ∈ cached, good ≤ c ∧ c ≤ bad) →
      List.Pairwise (fun a b => b ≤ a) cached →
      good ≤ (inCacheGo test fuel good bad cached mid tr).1.1 ∧
      (inCacheGo test fuel good bad cached mid tr).1.1
        ≤ (inCacheGo test fuel good bad cached mid tr).1.2 ∧
      (inCacheGo test fuel good bad cached mid tr).1.2 ≤ bad := by
  intro fuel
  induction fuel using Nat.strong_induction_on with
  | _ fuel ih =>
    intro good bad cached mid tr hfuel hgb hmemb hpw
    obtain ⟨k, rfl⟩ : ∃ k, fuel = k + 1 := ⟨fuel - 1, by omega⟩
    simp only [inCacheGo]
    by_cases hlen : cached.length = 0
    · rw [if_pos hlen]
      exact ⟨le_refl _, hgb, le_refl _⟩
    · rw [if_neg hlen]
      have hidx : cached.length / 2 < cached.length := by omega
      have hgetd : cached.getD (cached.length / 2) 0 = cached[cached.length / 2] := by
        rw [List.getD_eq_getElem?_getD, List.getElem?_eq_getElem hidx]
        rfl
      have hxmem : cached.getD (cached.length / 2) 0 ∈ cached := by
        rw [hgetd]
        exact List.getElem_mem hidx
      obtain ⟨hgx, hxb⟩ := hmemb _ hxmem
      by_cases hmid : (mid == some (cached.getD (cached.length / 2) 0)) = true
      · rw [if_pos hmid]
        exact ⟨le_refl _, hgb, le_refl _⟩
      · rw [if_neg hmid]
        simp only [callTest]
        have hdecomp : cached = cached.take (cached.length / 2)
            ++ cached.getD (cached.length / 2) 0 :: cached.drop (cached.length / 2 + 1) := by
          conv_lhs => rw [← List.take_append_drop (cached.length / 2) cached]
          rw [List.drop_eq_getElem_cons hidx, hgetd]
        have hpw2 : List.Pairwise (fun a b => b ≤ a)
            (cached.take (cached.length / 2)
              ++ cached.getD (cached.length / 2) 0 :: cached.drop (cached.length / 2 + 1)) := by
          rw [← hdecomp]
          exact hpw
        rw [List.pairwise_append] at hpw2
        obtain ⟨hpwtake, hpwcons, hcross⟩ := hpw2
        rw [List.pairwise_cons] at hpwcons
        obtain ⟨hafter, hpwdrop⟩ := hpwcons
        cases htm : test (cached.getD (cached.length / 2) 0) with
        | none =>
          apply ih k (by omega)
          · rw [List.length_erase_of_mem hxmem]; omega
          · exact hgb
          · intro c hc
            exact hmemb c ((List.erase_sublist _ _).subset hc)
          · exact hpw.sublist (List.erase_sublist _ _)
        | some b =>
          cases b
          · have hrec := ih k (by omega) (cached.getD (cached.length / 2) 0) bad
              (cached.take (cached.length / 2)) (some (cached.getD (cached.length / 2) 0))
              (tr ++ [cached.getD (cached.length / 2) 0])
              (by rw [List.length_take]; omega) hxb
              (fun c hc => ⟨hcross c hc _ (List.mem_cons_self _ _),
                (hmemb c ((List.take_sublist _ _).subset hc)).2⟩)
              (hpw.sublist (List.take_sublist _ _))
            exact ⟨le_trans hgx hrec.1, hrec.2.1, hrec.2.2⟩
          · have hrec := ih k (by omega) good (cached.getD (cached.length / 2) 0)
              (cached.drop (cached.length / 2 + 1)) (some (cached.getD (cached.length / 2) 0))
              (tr ++ [cached.getD (cached.length / 2) 0])
              (by rw [List.length_drop]; omega) hgx
              (fun c hc => ⟨(hmemb c ((List.drop_sublist _ _).subset hc)).1, hafter c hc⟩)
              (hpwdrop)
            exact ⟨hrec.1, hrec.2.1, le_trans hrec.2.2 hxb⟩

/-- C8, witness for the amended in-cache nesting at a concrete input. -/
theorem claim_C8_amended_witness :
    2 ≤ (inCacheGo tW 3 2 9 [7, 4] none []).1.1 ∧
    (inCacheGo tW 3 2 9 [7, 4] none []).1.1 ≤ (inCacheGo tW 3 2 9 [7, 4] none []).1.2 ∧
    (inCacheGo tW 3 2 9 [7, 4] none []).1.2 ≤ 9 :=
  claim_C8_amended tW 3 2 9 [7, 4] none [] (by decide) (by decide)
    (by decide) (by decide)
